import Mathlib

/-!
Verification of the scope component-factory (`ScopeExtension` in
`src/extensions/scope/scope.extension.ts`).

The resolution engine (`get`, `getMany`, `getOrThrow`, `list`, `exists`,
`getTagMap`, `createSnapFromVersion`, `createStateFromVersion`,
`loadExtensions`) is embedded shallowly.  The asynchronous collaborator calls
(object-store reads, consumer-record reconstruction, capsule provisioning,
plugin-runtime loading) are sequentialized into a writer-over-Except monad
`EffM` that records every collaborator call as an `Effect`, so that
frame/effect properties ("performs no store read") are statable.
Collaborators that live outside the examined source (the legacy store, the
isolator, the plugin loader) are modelled from the specification's interface
contracts and carry a doc comment saying so.
-/

namespace Scope

/-- a structured component identifier: name, optional scope namespace,
optional version.  Equality is structural. -/
structure ComponentID where
  name : String
  scope : Option String
  version : Option String
deriving DecidableEq

/-- Modelled from the spec: a legacy (lower-level) identifier carries the same
name/scope/version data as `ComponentID`; at this layer the two are in 1:1
correspondence, so the legacy form is identified with the structured form. -/
abbrev BitId := ComponentID

/-- Modelled from the spec: `ComponentID.fromLegacy` converts a legacy id into
the structured form (the identity under the identification above). -/
def ComponentID.fromLegacy (id : BitId) : ComponentID := id

/-- Modelled from the spec: `_legacy` projects the structured id back to the
legacy form (the identity under the identification above). -/
def ComponentID.legacy (id : ComponentID) : BitId := id

/-- Modelled from the spec: rebinding an identifier to a given scope name. -/
def ComponentID.changeScope (id : ComponentID) (scopeName : String) : ComponentID :=
  { id with scope := some scopeName }

/-- Modelled from the spec: the persisted aggregate for one component — an
identifier (name + owning scope), a mapping version-string ↦ Ref (hash of the
stored `Version` record), and a "latest" pointer. -/
structure ModelComponent where
  name : String
  scope : Option String
  versions : List (String × String)
  latestVersion : String
deriving DecidableEq

/-- Modelled from the spec: the id of a model component, qualified with its
latest version string. -/
def ModelComponent.toBitIdWithLatestVersion (mc : ModelComponent) : BitId :=
  { name := mc.name, scope := mc.scope, version := some mc.latestVersion }

/-- Modelled from the spec: the log recorded on a persisted `Version` —
commit message, epoch-string timestamp, author username and email (the author
fields, and the message at the layer the spec describes, may be absent). -/
structure VersionLog where
  message : Option String
  date : String
  username : Option String
  email : Option String
deriving DecidableEq

/-- Modelled from the spec: an immutable persisted record for one component
version — main file pointer, dependency set, log, and its own content hash. -/
structure Version where
  hash : String
  mainFile : String
  dependencies : List String
  log : VersionLog
deriving DecidableEq

/-- author metadata on a snap. -/
structure SnapAuthor where
  displayName : String
  email : String
deriving DecidableEq

/-- a derived, read-only view of a `Version`: hash, date (parsed from the
epoch string; `none` models a non-numeric timestamp), ordered parent snaps,
author, message. -/
inductive Snap where
  | mk (hash : String) (date : Option Nat) (parents : List Snap)
       (author : SnapAuthor) (message : Option String)

def Snap.hash : Snap → String
  | .mk h _ _ _ _ => h

def Snap.date : Snap → Option Nat
  | .mk _ d _ _ _ => d

def Snap.parents : Snap → List Snap
  | .mk _ _ p _ _ => p

def Snap.author : Snap → SnapAuthor
  | .mk _ _ _ a _ => a

def Snap.message : Snap → Option String
  | .mk _ _ _ _ m => m

/-- a `Snap` paired with a semantic version (kept as its normalized string). -/
structure Tag where
  snap : Snap
  version : String

/-- a keyed map semantic-version ↦ `Tag`, as an association list. -/
abbrev TagMap := List (String × Tag)

/-- keyed insertion: replace the entry when the key is present, append
otherwise. -/
def TagMap.set (tm : TagMap) (k : String) (t : Tag) : TagMap :=
  if (tm.filter (fun p => p.1 = k)).isEmpty then tm ++ [(k, t)]
  else tm.map (fun p => if p.1 = k then (k, t) else p)

/-- Modelled from the spec: the consumer-level component record — resolved
file list and resolved extension/config data. -/
structure ConsumerComponent where
  files : List String
  extensions : List String
deriving DecidableEq

/-- component config: main file plus extension/config data. -/
structure Config where
  mainFile : String
  extensions : List String
deriving DecidableEq

/-- the full working materialization of one component version. -/
structure State where
  config : Config
  filesystem : List String
  dependencies : List String
  consumer : ConsumerComponent
deriving DecidableEq

/-- the public aggregate returned to callers (the host back-reference of the
source is the factory itself and is not part of the value model). -/
structure Component where
  id : ComponentID
  head : Snap
  state : State
  tags : TagMap

/-- Modelled from the spec: an isolated execution capsule built from one
component. -/
structure Capsule where
  component : Component

/-- Modelled from the spec: a requireable handle wrapping a capsule. -/
structure RequireableComponent where
  capsule : Capsule

/-- Modelled from the spec: wrapping a capsule into a requireable handle. -/
def RequireableComponent.fromCapsule (c : Capsule) : RequireableComponent :=
  { capsule := c }

/-- Modelled from the spec: provisioning one capsule per component. -/
def Capsule.ofComponent (c : Component) : Capsule :=
  { component := c }

/-- the state of the scope and its object store: the scope's own name, the
model components known to the store, the hash-addressed `Version` records,
and the consumer-level records keyed by identifier. -/
structure ScopeState where
  scopeName : String
  modelComps : List ModelComponent
  objects : List (String × Version)
  consumerComps : List (ComponentID × ConsumerComponent)

/-- pagination filter accepted by `list`. -/
structure ListFilter where
  offset : Nat
  limit : Nat

/-- typed failures of the engine. -/
inductive ScopeError where
  | componentNotFound (id : ComponentID)
  | versionLoadFailed (versionStr : String)
  | consumerRecordUnavailable (id : ComponentID)
deriving DecidableEq

/-- one collaborator call made by the engine. -/
inductive Effect where
  | storeRead (id : ComponentID)
  | storeList
  | objectLoad (hash : String)
  | consumerRead (id : ComponentID)
  | isolateCall (components : List Component)
  | pluginLoadCall (handles : List RequireableComponent) (throwOnError : Bool)

/-- the effect monad: a value (or a typed failure) together with the ordered
trace of collaborator calls performed. -/
def EffM (α : Type) : Type := Except ScopeError (α × List Effect)

/-- prepend an already-recorded trace to a computation's result. -/
def EffM.withTrace (w : List Effect) : EffM α → EffM α
  | .error e => .error e
  | .ok (a, w2) => .ok (a, w ++ w2)

/-- sequencing in `EffM`: traces concatenate, failures short-circuit. -/
def EffM.bind (x : EffM α) (f : α → EffM β) : EffM β :=
  match x with
  | .error e => .error e
  | .ok (a, w) => EffM.withTrace w (f a)

/-- the value part of a computation, discarding the trace. -/
def EffM.runVal : EffM α → Except ScopeError α
  | .error e => .error e
  | .ok (a, _) => .ok a

/-- the present value of a computation returning an optional result: `some`
exactly when the computation succeeded with a present value. -/
def EffM.optVal : EffM (Option α) → Option α
  | .ok (some a, _) => some a
  | _ => none

/-- association-list lookup used to model the keyed collaborator stores. -/
def assocLookup [DecidableEq κ] (k : κ) : List (κ × α) → Option α
  | [] => none
  | (k2, v) :: rest => if k2 = k then some v else assocLookup k rest

/-- Modelled from the spec: the store's `loadModelComponent(id) → ModelComponent
| absent` contract — the model component whose identifier (name + scope, the
version part of the id playing no role) matches the given id, if any. -/
def lookupModel (st : ScopeState) (id : ComponentID) : Option ModelComponent :=
  st.modelComps.find? (fun mc => decide (mc.name = id.name ∧ mc.scope = id.scope))

/-- `legacyScope.getModelComponentIfExist`: one store read. -/
def getModelComponentIfExistM (st : ScopeState) (id : ComponentID) :
    EffM (Option ModelComponent) :=
  .ok (lookupModel st id, [Effect.storeRead id])

/-- the pure value of `ModelComponent.loadVersion`: resolve the version string
to its Ref, then the Ref to the stored `Version` record. -/
def loadVersionPure (st : ScopeState) (mc : ModelComponent) (versionStr : String) :
    Option Version :=
  (assocLookup versionStr mc.versions).bind (fun ref => assocLookup ref st.objects)

/-- Modelled from the spec: `ModelComponent.loadVersion(versionStr, objects)` —
resolve the version string to its Ref and load the record by hash; absence is
returned, not thrown, at this layer. -/
def loadVersionM (st : ScopeState) (mc : ModelComponent) (versionStr : String) :
    EffM (Option Version) :=
  match assocLookup versionStr mc.versions with
  | none => .ok (none, [])
  | some ref => .ok (assocLookup ref st.objects, [Effect.objectLoad ref])

/-- `legacyScope.list()`: one store listing. -/
def listStoreM (st : ScopeState) : EffM (List ModelComponent) :=
  .ok (st.modelComps, [Effect.storeList])

/-- JavaScript `x || d` on an optional string: the default replaces both an
absent and an empty string. -/
def jsOrString : Option String → String → String
  | none, d => d
  | some s, d => if s = "" then d else s

/-- `createSnapFromVersion`: hash from the version's own content hash, date
parsed from the log's epoch string, empty parent list, author fields
defaulted via `||`, and the log's message passed through unchanged. -/
def createSnapFromVersion (version : Version) : Snap :=
  Snap.mk version.hash version.log.date.toNat? []
    { displayName := jsOrString version.log.username "unknown"
      email := jsOrString version.log.email "unknown@anywhere" }
    version.log.message

/-- `createStateFromVersion`: load the consumer-level record for the id (a
collaborator read; its absence is the hard failure
`consumerRecordUnavailable`), then assemble config from the version's main
file and the consumer record's extensions, the filesystem from the consumer
record's files, and the dependencies from the raw version. -/
def createStateFromVersion (st : ScopeState) (id : ComponentID) (version : Version) :
    EffM State :=
  match assocLookup id st.consumerComps with
  | none => .error (.consumerRecordUnavailable id)
  | some consumerComponent =>
    .ok ({ config := { mainFile := version.mainFile
                       extensions := consumerComponent.extensions }
           filesystem := consumerComponent.files
           dependencies := version.dependencies
           consumer := consumerComponent }, [Effect.consumerRead id])

/-- the traversal inside `getTagMap`: for every version-string key, try to
load its `Version`; on success derive the snap, wrap it with the version into
a tag and insert it keyed by the version; on failure skip the key. -/
def getTagMapGo (st : ScopeState) (mc : ModelComponent) :
    List (String × String) → TagMap → EffM TagMap
  | [], tagMap => .ok (tagMap, [])
  | (versionStr, _) :: rest, tagMap =>
    EffM.bind (loadVersionM st mc versionStr) fun version =>
      match version with
      | some v =>
        getTagMapGo st mc rest
          (TagMap.set tagMap versionStr { snap := createSnapFromVersion v, version := versionStr })
      | none => getTagMapGo st mc rest tagMap

/-- `getTagMap`: build the tag map over all version keys of the component. -/
def getTagMap (st : ScopeState) (mc : ModelComponent) : EffM TagMap :=
  getTagMapGo st mc mc.versions []

/-- the hydration tail of `get`, once a model component has been found under
`id`: resolve the "latest" version string, load that `Version` (a missing
record aborts the call), derive its snap, build the state, build the tag map,
and compose the `Component`. -/
def hydrateComp (st : ScopeState) (id : ComponentID) (modelComponent : ModelComponent) :
    EffM (Option Component) :=
  EffM.bind (loadVersionM st modelComponent modelComponent.latestVersion) fun version =>
    match version with
    | none => .error (.versionLoadFailed modelComponent.latestVersion)
    | some version =>
      EffM.bind (createStateFromVersion st id version) fun state =>
        EffM.bind (getTagMap st modelComponent) fun tags =>
          .ok (some { id := id, head := createSnapFromVersion version
                      state := state, tags := tags }, [])

/-- `get`: load the model component for `id`; when absent and `id` carries no
scope, retry once with the id rebound to this scope's own name (the rebound
id is then the id of the returned component); when still absent return the
absent sentinel; otherwise hydrate. -/
def get (st : ScopeState) (id : ComponentID) : EffM (Option Component) :=
  EffM.bind (getModelComponentIfExistM st id) fun modelComponent =>
    match modelComponent with
    | some mc => hydrateComp st id mc
    | none =>
      if id.scope = none then
        EffM.bind (getModelComponentIfExistM st (id.changeScope st.scopeName)) fun mc2 =>
          match mc2 with
          | some mc => hydrateComp st (id.changeScope st.scopeName) mc
          | none => .ok (none, [])
      else .ok (none, [])

/-- the strictly sequential `mapSeries` over `get` inside `getMany`. -/
def mapSeriesGet (st : ScopeState) : List ComponentID → EffM (List (Option Component))
  | [] => .ok ([], [])
  | id :: rest =>
    EffM.bind (get st id) fun c =>
      EffM.bind (mapSeriesGet st rest) fun cs =>
        .ok (c :: cs, [])

/-- `getMany`: compact away nullish identifiers, resolve the rest via `get`
sequentially in input order, and compact away absent results. -/
def getMany (st : ScopeState) (ids : List (Option ComponentID)) : EffM (List Component) :=
  EffM.bind (mapSeriesGet st (ids.filterMap (fun x => x))) fun components =>
    .ok (components.filterMap (fun x => x), [])

/-- `getOrThrow`: `get`, turning absence into `componentNotFound` carrying
the caller's identifier. -/
def getOrThrow (st : ScopeState) (id : ComponentID) : EffM Component :=
  EffM.bind (get st id) fun component =>
    match component with
    | none => .error (.componentNotFound id)
    | some c => .ok (c, [])

/-- `exists`: the ownership predicate — the component's recorded owning-scope
name equals this scope's name (a strict equality, so an unowned/null scope
never matches). -/
def existsInScope (st : ScopeState) (mc : ModelComponent) : Bool :=
  decide (mc.scope = some st.scopeName)

/-- the identifiers `list` derives before pagination: all model components
known to the store, restricted to this scope's own components unless
`includeCache` is set, each taken at its latest version. -/
def listedIds (st : ScopeState) (includeCache : Bool) : List ComponentID :=
  ((if includeCache then st.modelComps else st.modelComps.filter (existsInScope st)).map
    (fun c => ComponentID.fromLegacy c.toBitIdWithLatestVersion))

/-- the pagination step of `list` (the source's
`filter && filter.limit ? slice(ids, offset, offset + limit) : ids`): slice
`[offset, offset+limit)` when a filter with a truthy — non-zero — `limit` is
given, otherwise pass the ids through. -/
def applyFilter (filter : Option ListFilter) (componentsIds : List ComponentID) :
    List ComponentID :=
  match filter with
  | some f => if f.limit ≠ 0 then (componentsIds.drop f.offset).take f.limit
              else componentsIds
  | none => componentsIds

/-- `list`: list the store's model components, filter by ownership unless
`includeCache`, map to latest-version ids, paginate, and hydrate via
`getMany`. -/
def list (st : ScopeState) (filter : Option ListFilter) (includeCache : Bool) :
    EffM (List Component) :=
  EffM.bind (listStoreM st) fun modelComponents =>
    let modelComponents :=
      if includeCache then modelComponents else modelComponents.filter (existsInScope st)
    let componentsIds :=
      modelComponents.map (fun c => ComponentID.fromLegacy c.toBitIdWithLatestVersion)
    getMany st ((applyFilter filter componentsIds).map some)

/-- Modelled from the spec: one entry of an extension data list; the entry
may or may not carry a component id (core extensions carry none). -/
structure ExtensionEntry where
  extensionId : Option BitId

/-- Modelled from the spec: the extension configuration list handed to
`loadExtensions`. -/
structure ExtensionDataList where
  entries : List ExtensionEntry

/-- Modelled from the spec: `extensionsBitIds` — the ids of the entries that
carry one. -/
def ExtensionDataList.extensionsBitIds (e : ExtensionDataList) : List BitId :=
  e.entries.filterMap (fun entry => entry.extensionId)

/-- Modelled from the spec: the isolator's `isolateComponents` — one capsule
per component, one provisioning call. -/
def isolateComponentsM (components : List Component) : EffM (List Capsule) :=
  .ok (components.map Capsule.ofComponent, [Effect.isolateCall components])

/-- Modelled from the spec: the plugin runtime's loader over requireable
handles, configured with a throw-on-error flag; one load call. -/
def loadRequireableExtensionsM (handles : List RequireableComponent) (throwOnError : Bool) :
    EffM Unit :=
  .ok ((), [Effect.pluginLoadCall handles throwOnError])

/-- `loadExtensions`: extract the structured ids; a no-op when there are
none; otherwise hydrate via `getMany`, isolate into capsules, wrap each
capsule into a requireable handle, and hand all handles to the plugin loader
with errors propagated. -/
def loadExtensions (st : ScopeState) (extensions : ExtensionDataList) : EffM Unit :=
  let ids := extensions.extensionsBitIds.map ComponentID.fromLegacy
  if ids.isEmpty then .ok ((), [])
  else
    EffM.bind (getMany st (ids.map some)) fun components =>
      EffM.bind (isolateComponentsM components) fun capsules =>
        let requireableExtensions := capsules.map RequireableComponent.fromCapsule
        loadRequireableExtensionsM requireableExtensions true

/-- an example stored version owned by the scope itself. -/
def vUtil : Version :=
  { hash := "h1", mainFile := "index.ts", dependencies := []
    log := { message := some "first", date := "1000"
             username := some "alice", email := some "alice@x" } }

/-- an example stored version owned by another scope. -/
def vShared : Version :=
  { hash := "h2", mainFile := "main.ts", dependencies := ["d"]
    log := { message := some "second", date := "2000"
             username := some "bob", email := some "bob@x" } }

/-- an example model component owned by the scope `"local"`. -/
def mcUtil : ModelComponent :=
  { name := "util", scope := some "local"
    versions := [("1.0.0", "h1")], latestVersion := "1.0.0" }

/-- an example model component owned by the foreign scope `"other"`, cached
locally. -/
def mcShared : ModelComponent :=
  { name := "shared", scope := some "other"
    versions := [("2.0.0", "h2")], latestVersion := "2.0.0" }

/-- consumer record of the local component. -/
def ccUtil : ConsumerComponent := { files := ["index.ts"], extensions := [] }

/-- consumer record of the cached foreign component. -/
def ccShared : ConsumerComponent := { files := ["main.ts"], extensions := ["ext"] }

/-- the local component at its latest version. -/
def idUtilFull : ComponentID :=
  { name := "util", scope := some "local", version := some "1.0.0" }

/-- the local component addressed bare: no scope, no version. -/
def idUtilBare : ComponentID := { name := "util", scope := none, version := none }

/-- the bare id rebound to the scope's own name. -/
def idUtilLocal : ComponentID :=
  { name := "util", scope := some "local", version := none }

/-- the foreign component at its latest version. -/
def idSharedFull : ComponentID :=
  { name := "shared", scope := some "other", version := some "2.0.0" }

/-- an identifier matching nothing in the example store. -/
def idMissing : ComponentID := { name := "nope", scope := none, version := none }

/-- the example scope state: scope name `"local"`, both model components in
the store, both version records loadable, consumer records for every
addressable id. -/
def exSt : ScopeState :=
  { scopeName := "local"
    modelComps := [mcUtil, mcShared]
    objects := [("h1", vUtil), ("h2", vShared)]
    consumerComps := [(idUtilFull, ccUtil), (idUtilLocal, ccUtil), (idSharedFull, ccShared)] }

/-- the hydrated state of the local component. -/
def stateUtil : State :=
  { config := { mainFile := "index.ts", extensions := [] }
    filesystem := ["index.ts"], dependencies := [], consumer := ccUtil }

/-- the local component as returned by a bare-id `get` (note the rebound id). -/
def cUtilBare : Component :=
  { id := idUtilLocal, head := createSnapFromVersion vUtil, state := stateUtil
    tags := [("1.0.0", { snap := createSnapFromVersion vUtil, version := "1.0.0" })] }

/-- the local component as returned from a latest-version id. -/
def cUtilFull : Component :=
  { id := idUtilFull, head := createSnapFromVersion vUtil, state := stateUtil
    tags := [("1.0.0", { snap := createSnapFromVersion vUtil, version := "1.0.0" })] }

/-- the hydrated state of the cached foreign component. -/
def stateShared : State :=
  { config := { mainFile := "main.ts", extensions := ["ext"] }
    filesystem := ["main.ts"], dependencies := ["d"], consumer := ccShared }

/-- the cached foreign component as returned from its latest-version id. -/
def cSharedFull : Component :=
  { id := idSharedFull, head := createSnapFromVersion vShared, state := stateShared
    tags := [("2.0.0", { snap := createSnapFromVersion vShared, version := "2.0.0" })] }

/-- an example model component with one loadable and one unloadable version. -/
def mcMixed : ModelComponent :=
  { name := "util", scope := some "local"
    versions := [("1.0.0", "h1"), ("1.5.0", "hGone")], latestVersion := "1.0.0" }

/-- an example version with no author metadata and no message in its log. -/
def vNoMeta : Version :=
  { hash := "h9", mainFile := "a.ts", dependencies := []
    log := { message := none, date := "x", username := none, email := none } }

/-- an example extension data list with one entry that carries no component
id, so the derived id set is empty. -/
def edlEmpty : ExtensionDataList := { entries := [{ extensionId := none }] }

/-- an example extension data list referencing one present and one absent
component. -/
def edlMixed : ExtensionDataList :=
  { entries := [{ extensionId := some idUtilFull }, { extensionId := some idMissing }] }

theorem EffM.bind_ok (a : α) (w : List Effect) (f : α → EffM β) :
    EffM.bind (.ok (a, w)) f = EffM.withTrace w (f a) := rfl

theorem EffM.bind_err (e : ScopeError) (f : α → EffM β) :
    EffM.bind (Except.error e) f = .error e := rfl

theorem EffM.withTrace_ok (w : List Effect) (a : α) (w2 : List Effect) :
    EffM.withTrace w (.ok (a, w2)) = .ok (a, w ++ w2) := rfl

theorem EffM.withTrace_err (w : List Effect) (e : ScopeError) :
    EffM.withTrace w (Except.error e : EffM α) = .error e := rfl

theorem EffM.runVal_ok (a : α) (w : List Effect) :
    EffM.runVal (Except.ok (a, w)) = Except.ok a := rfl

theorem EffM.runVal_err (e : ScopeError) :
    EffM.runVal (α := α) (Except.error e) = Except.error e := rfl

theorem EffM.runVal_withTrace (w : List Effect) (x : EffM α) :
    (EffM.withTrace w x).runVal = x.runVal := by
  cases x with
  | error e => rfl
  | ok p => rfl

theorem EffM.runVal_bind_ok {x : EffM α} {a : α} {w : List Effect}
    (h : x = .ok (a, w)) (f : α → EffM β) :
    (EffM.bind x f).runVal = (f a).runVal := by
  subst h
  rw [EffM.bind_ok, EffM.runVal_withTrace]

theorem EffM.bind_eq_ok {x : EffM α} {f : α → EffM β} {b : β} {w : List Effect}
    (h : EffM.bind x f = .ok (b, w)) :
    ∃ a w1 w2, x = .ok (a, w1) ∧ f a = .ok (b, w2) ∧ w = w1 ++ w2 := by
  cases x with
  | error e => simp [EffM.bind] at h
  | ok p =>
    obtain ⟨a, w1⟩ := p
    rw [EffM.bind_ok] at h
    cases hf : f a with
    | error e => rw [hf] at h; simp [EffM.withTrace] at h
    | ok q =>
      obtain ⟨b2, w2⟩ := q
      rw [hf, EffM.withTrace_ok] at h
      injection h with h3
      injection h3 with h1 h2
      exact ⟨a, w1, w2, rfl, by rw [hf, h1], h2.symm⟩

theorem loadVersionM_eq (st : ScopeState) (mc : ModelComponent) (vs : String) :
    ∃ w, loadVersionM st mc vs = .ok (loadVersionPure st mc vs, w) := by
  unfold loadVersionM loadVersionPure
  cases assocLookup vs mc.versions with
  | none => exact ⟨[], rfl⟩
  | some ref => exact ⟨[Effect.objectLoad ref], rfl⟩

theorem getTagMapGo_exists_ok (st : ScopeState) (mc : ModelComponent) :
    ∀ (l : List (String × String)) (acc : TagMap),
      ∃ tm w, getTagMapGo st mc l acc = .ok (tm, w) := by
  intro l
  induction l with
  | nil => exact fun acc => ⟨acc, [], rfl⟩
  | cons p rest ih =>
    obtain ⟨vs, r⟩ := p
    intro acc
    obtain ⟨w0, hw0⟩ := loadVersionM_eq st mc vs
    cases hv : loadVersionPure st mc vs with
    | none =>
      rw [hv] at hw0
      obtain ⟨tm, w, hgo⟩ := ih acc
      exact ⟨tm, w0 ++ w, by
        simp only [getTagMapGo, hw0, EffM.bind_ok, hgo, EffM.withTrace_ok]⟩
    | some v =>
      rw [hv] at hw0
      obtain ⟨tm, w, hgo⟩ :=
        ih (TagMap.set acc vs { snap := createSnapFromVersion v, version := vs })
      exact ⟨tm, w0 ++ w, by
        simp only [getTagMapGo, hw0, EffM.bind_ok, hgo, EffM.withTrace_ok]⟩

theorem getTagMap_eq_go (st : ScopeState) (mc : ModelComponent) :
    getTagMap st mc = getTagMapGo st mc mc.versions [] := rfl

theorem hydrateComp_id {st : ScopeState} {id : ComponentID} {mc : ModelComponent}
    {c : Component} (h : (hydrateComp st id mc).runVal = .ok (some c)) : c.id = id := by
  obtain ⟨w0, hw0⟩ := loadVersionM_eq st mc mc.latestVersion
  cases hv : loadVersionPure st mc mc.latestVersion with
  | none =>
    rw [hv] at hw0
    simp only [hydrateComp, hw0, EffM.bind_ok, EffM.runVal_withTrace, EffM.runVal_err] at h
    exact Except.noConfusion h
  | some v =>
    rw [hv] at hw0
    simp only [hydrateComp, hw0, EffM.bind_ok, EffM.runVal_withTrace] at h
    cases hs : createStateFromVersion st id v with
    | error e =>
      simp only [hs, EffM.bind_err, EffM.runVal_err] at h
      exact Except.noConfusion h
    | ok p =>
      obtain ⟨s, ws⟩ := p
      obtain ⟨tm, wt, ht⟩ := getTagMapGo_exists_ok st mc mc.versions []
      rw [← getTagMap_eq_go] at ht
      simp only [hs, EffM.bind_ok, EffM.runVal_withTrace, ht, EffM.runVal_ok,
        Except.ok.injEq, Option.some.injEq] at h
      rw [← h]

theorem EffM.optVal_ok {x : EffM (Option α)} {c : Option α} {w : List Effect}
    (h : x = .ok (c, w)) : EffM.optVal x = c := by
  subst h
  cases c with
  | none => rfl
  | some a => rfl

theorem EffM.optVal_eq_some {x : EffM (Option α)} {c : α} :
    EffM.optVal x = some c ↔ x.runVal = .ok (some c) := by
  cases x with
  | error e =>
    simp [EffM.optVal, EffM.runVal_err]
  | ok p =>
    obtain ⟨v, w⟩ := p
    cases v <;> simp [EffM.optVal, EffM.runVal_ok]

theorem filterMap_id_map_some (l : List α) :
    (l.map some).filterMap (fun x => x) = l := by
  induction l with
  | nil => rfl
  | cons a l ih => simp [List.filterMap_cons, ih]

theorem filterMap_length_countP (f : α → Option β) (l : List α) :
    (l.filterMap f).length = l.countP (fun a => (f a).isSome) := by
  induction l with
  | nil => rfl
  | cons a l ih =>
    cases hf : f a <;> simp [List.filterMap_cons, hf, List.countP_cons, ih]

theorem mapSeriesGet_ok_spec (st : ScopeState) :
    ∀ (l : List ComponentID) (os : List (Option Component)) (w : List Effect),
      mapSeriesGet st l = .ok (os, w) →
      os.filterMap (fun x => x) = l.filterMap (fun i => EffM.optVal (get st i)) := by
  intro l
  induction l with
  | nil =>
    intro os w h
    simp only [mapSeriesGet] at h
    injection h with hp
    injection hp with hp1 hp2
    subst hp1
    rfl
  | cons i rest ih =>
    intro os w h
    simp only [mapSeriesGet] at h
    obtain ⟨c, w1, w2, hget, hf, hw⟩ := EffM.bind_eq_ok h
    obtain ⟨cs, w3, w4, hms, hpure, hw2⟩ := EffM.bind_eq_ok hf
    injection hpure with hp
    injection hp with hp1 hp2
    subst hp1
    have hov : EffM.optVal (get st i) = c := EffM.optVal_ok hget
    cases c with
    | none => simp [List.filterMap_cons, hov, ih _ _ hms]
    | some a => simp [List.filterMap_cons, hov, ih _ _ hms]

theorem getMany_ok_spec (st : ScopeState) (ids : List (Option ComponentID))
    {cs : List Component} (h : (getMany st ids).runVal = .ok cs) :
    cs = (ids.filterMap (fun x => x)).filterMap (fun i => EffM.optVal (get st i)) := by
  cases hms : mapSeriesGet st (ids.filterMap (fun x => x)) with
  | error e =>
    simp only [getMany, hms, EffM.bind_err, EffM.runVal_err] at h
    exact Except.noConfusion h
  | ok p =>
    obtain ⟨os, w⟩ := p
    simp only [getMany, hms, EffM.bind_ok, EffM.withTrace_ok, EffM.runVal_ok] at h
    injection h with h1
    rw [← h1]
    exact mapSeriesGet_ok_spec st _ os w hms

theorem TagMap.set_of_fresh (tm : TagMap) (k : String) (t : Tag)
    (h : ∀ p ∈ tm, p.1 ≠ k) : TagMap.set tm k t = tm ++ [(k, t)] := by
  unfold TagMap.set
  rw [if_pos]
  rw [List.isEmpty_iff, List.filter_eq_nil_iff]
  intro p hp
  simp [h p hp]

theorem getTagMapGo_spec (st : ScopeState) (mc : ModelComponent) :
    ∀ (l : List (String × String)) (acc : TagMap),
      (l.map Prod.fst).Nodup →
      (∀ p ∈ l, ∀ q ∈ acc, q.1 ≠ p.1) →
      (getTagMapGo st mc l acc).runVal =
        .ok (acc ++ l.filterMap (fun p =>
          (loadVersionPure st mc p.1).map
            (fun v => (p.1, ({ snap := createSnapFromVersion v, version := p.1 } : Tag))))) := by
  intro l
  induction l with
  | nil =>
    intro acc _ _
    simp [getTagMapGo, EffM.runVal_ok]
  | cons p rest ih =>
    obtain ⟨vs, r⟩ := p
    intro acc hnodup hdisj
    simp only [List.map_cons] at hnodup
    obtain ⟨w0, hw0⟩ := loadVersionM_eq st mc vs
    cases hv : loadVersionPure st mc vs with
    | none =>
      rw [hv] at hw0
      simp only [getTagMapGo, hw0, EffM.bind_ok, EffM.runVal_withTrace]
      rw [ih acc hnodup.of_cons
        (fun p hp q hq => hdisj p (List.mem_cons_of_mem _ hp) q hq)]
      simp [List.filterMap_cons, hv]
    | some v =>
      rw [hv] at hw0
      simp only [getTagMapGo, hw0, EffM.bind_ok, EffM.runVal_withTrace]
      rw [TagMap.set_of_fresh acc vs _
        (fun q hq => hdisj (vs, r) (List.mem_cons_self _ _) q hq)]
      have hfresh : ∀ p ∈ rest,
          ∀ q ∈ acc ++ [(vs, ({ snap := createSnapFromVersion v, version := vs } : Tag))],
          q.1 ≠ p.1 := by
        intro p hp q hq
        rcases List.mem_append.mp hq with hq1 | hq2
        · exact hdisj p (List.mem_cons_of_mem _ hp) q hq1
        · have hvs : q.1 = vs := by
            rcases List.mem_singleton.mp hq2 with rfl
            rfl
          rw [hvs]
          intro hcontra
          apply (List.nodup_cons.mp hnodup).1
          rw [hcontra]
          exact List.mem_map_of_mem Prod.fst hp
      have hrec := ih (acc ++ [(vs, ({ snap := createSnapFromVersion v, version := vs } : Tag))])
        hnodup.of_cons hfresh
      rw [hrec]
      simp [List.filterMap_cons, hv]

theorem applyFilter_subset (filter : Option ListFilter) (ids : List ComponentID) :
    applyFilter filter ids ⊆ ids := by
  intro i hi
  cases filter with
  | none => exact hi
  | some f =>
    simp only [applyFilter] at hi
    by_cases hl : f.limit = 0
    · rw [if_neg (fun hcon => hcon hl)] at hi
      exact hi
    · rw [if_pos hl] at hi
      exact List.drop_subset _ _ (List.take_subset _ _ hi)

theorem get_scoped_id {st : ScopeState} {id : ComponentID} {c : Component}
    (hscope : id.scope ≠ none) (h : EffM.optVal (get st id) = some c) : c.id = id := by
  rw [EffM.optVal_eq_some] at h
  cases hmc : lookupModel st id with
  | some mc =>
    simp only [get, getModelComponentIfExistM, EffM.bind_ok, hmc,
      EffM.runVal_withTrace] at h
    exact hydrateComp_id h
  | none =>
    simp only [get, getModelComponentIfExistM, EffM.bind_ok, hmc] at h
    rw [if_neg hscope, EffM.runVal_withTrace, EffM.runVal_ok] at h
    exact Option.noConfusion (Except.ok.inj h)

/-- C1: for every `ComponentID` carrying no explicit scope, if the store has
no `ModelComponent` under the literal identifier but has one under the
identifier rebound to this scope's own name, `get` returns the result of
hydrating that rebound find (the component found under the rebound
identifier); if neither lookup finds a `ModelComponent`, `get` returns the
absent sentinel rather than an error. -/
theorem get_bare_scope_fallback (st : ScopeState) (id : ComponentID)
    (hscope : id.scope = none) (hmiss : lookupModel st id = none) :
    (∀ mc, lookupModel st (id.changeScope st.scopeName) = some mc →
      (get st id).runVal = (hydrateComp st (id.changeScope st.scopeName) mc).runVal) ∧
    (lookupModel st (id.changeScope st.scopeName) = none →
      (get st id).runVal = Except.ok none) := by
  constructor
  · intro mc hmc
    simp [get, getModelComponentIfExistM, EffM.bind_ok, hmiss, hscope, hmc,
      EffM.runVal_withTrace]
  · intro hmc
    simp [get, getModelComponentIfExistM, EffM.bind_ok, hmiss, hscope, hmc,
      EffM.runVal_withTrace, EffM.runVal_ok]

/-- C1 witness: in the example store the bare id `util` misses literally,
hits after rebinding to `"local"`, and a fully absent id yields the absent
sentinel. -/
theorem get_bare_scope_fallback_witness :
    (get exSt idUtilBare).runVal =
      (hydrateComp exSt (idUtilBare.changeScope exSt.scopeName) mcUtil).runVal ∧
    (get exSt idMissing).runVal = Except.ok none :=
  ⟨(get_bare_scope_fallback exSt idUtilBare rfl rfl).1 mcUtil rfl,
   (get_bare_scope_fallback exSt idMissing rfl rfl).2 rfl⟩

/-- C4 counterexample: the claim says the snap's message defaults to a
sentinel when absent in the log, but for a version whose log has no message
the derived snap's message stays absent — no sentinel is substituted (the
source applies `||` fallbacks to the author fields only). -/
theorem createSnap_message_stays_absent :
    (createSnapFromVersion vNoMeta).message = none := rfl

/-- C4 (amended): the derived snap's author display name defaults to
`"unknown"` when the log's username is absent and the author email defaults
to `"unknown@anywhere"` when the log's email is absent; the message is passed
through unchanged (not defaulted); the parents list is always empty; the
derivation is a total function, so it never fails on missing metadata. -/
theorem createSnap_author_defaults (version : Version) :
    (version.log.username = none →
      (createSnapFromVersion version).author.displayName = "unknown") ∧
    (version.log.email = none →
      (createSnapFromVersion version).author.email = "unknown@anywhere") ∧
    (createSnapFromVersion version).message = version.log.message ∧
    (createSnapFromVersion version).parents = [] := by
  refine ⟨fun h => ?_, fun h => ?_, rfl, rfl⟩ <;>
    simp [createSnapFromVersion, Snap.author, h, jsOrString]

/-- C4 witness: the defaults on the metadata-free example version. -/
theorem createSnap_author_defaults_witness :
    (createSnapFromVersion vNoMeta).author.displayName = "unknown" ∧
    (createSnapFromVersion vNoMeta).author.email = "unknown@anywhere" ∧
    (createSnapFromVersion vNoMeta).message = vNoMeta.log.message ∧
    (createSnapFromVersion vNoMeta).parents = [] :=
  ⟨(createSnap_author_defaults vNoMeta).1 rfl,
   (createSnap_author_defaults vNoMeta).2.1 rfl,
   (createSnap_author_defaults vNoMeta).2.2.1,
   (createSnap_author_defaults vNoMeta).2.2.2⟩

/-- C7: whenever `get` returns the absent sentinel, `getOrThrow` fails with
`componentNotFound` carrying the caller's exact identifier; whenever `get`
returns a component, `getOrThrow` returns that same component. -/
theorem getOrThrow_contract (st : ScopeState) (id : ComponentID) :
    ((get st id).runVal = Except.ok none →
      (getOrThrow st id).runVal = Except.error (.componentNotFound id)) ∧
    (∀ c, (get st id).runVal = Except.ok (some c) →
      (getOrThrow st id).runVal = Except.ok c) := by
  constructor
  · intro h
    cases hg : get st id with
    | error e =>
      rw [hg, EffM.runVal_err] at h
      exact Except.noConfusion h
    | ok p =>
      obtain ⟨v, w⟩ := p
      rw [hg, EffM.runVal_ok] at h
      injection h with h2
      subst h2
      simp [getOrThrow, hg, EffM.bind_ok, EffM.withTrace_err, EffM.runVal_err]
  · intro c h
    cases hg : get st id with
    | error e =>
      rw [hg, EffM.runVal_err] at h
      exact Except.noConfusion h
    | ok p =>
      obtain ⟨v, w⟩ := p
      rw [hg, EffM.runVal_ok] at h
      injection h with h2
      subst h2
      simp [getOrThrow, hg, EffM.bind_ok, EffM.withTrace_ok, EffM.runVal_ok]

/-- C7 witness: on the example store, `getOrThrow` of a fully absent id fails
with `componentNotFound` carrying that id, and `getOrThrow` of the present
latest-version id returns the hydrated component. -/
theorem getOrThrow_contract_witness :
    (getOrThrow exSt idMissing).runVal = Except.error (.componentNotFound idMissing) ∧
    (getOrThrow exSt idUtilFull).runVal = Except.ok cUtilFull :=
  ⟨(getOrThrow_contract exSt idMissing).1 rfl,
   (getOrThrow_contract exSt idUtilFull).2 cUtilFull rfl⟩

/-- C8: `loadExtensions` on an extension list that yields no component ids
returns successfully with an empty effect trace — no store read, no
hydration, no capsule provisioning and no plugin-runtime load call. -/
theorem loadExtensions_empty_noop (st : ScopeState) (extensions : ExtensionDataList)
    (h : extensions.extensionsBitIds = []) :
    loadExtensions st extensions = Except.ok ((), []) := by
  simp [loadExtensions, h, ComponentID.fromLegacy]

/-- C8 witness: an extension list whose single entry carries no id is a pure
no-op. -/
theorem loadExtensions_empty_noop_witness :
    loadExtensions exSt edlEmpty = Except.ok ((), []) :=
  loadExtensions_empty_noop exSt edlEmpty rfl

/-- C9: when `get` succeeds only through the bare-scope fallback (the
unscoped identifier misses the store literally), the returned component's id
is the identifier rebound to this scope's own name, not the caller's
original unscoped identifier. -/
theorem get_fallback_rebinds_id (st : ScopeState) (id : ComponentID) (c : Component)
    (hscope : id.scope = none) (hmiss : lookupModel st id = none)
    (h : (get st id).runVal = Except.ok (some c)) :
    c.id = id.changeScope st.scopeName := by
  cases hmc : lookupModel st (id.changeScope st.scopeName) with
  | none =>
    simp [get, getModelComponentIfExistM, EffM.bind_ok, hmiss, hscope, hmc,
      EffM.runVal_withTrace, EffM.runVal_ok] at h
  | some mc =>
    simp only [get, getModelComponentIfExistM, EffM.bind_ok, hmiss, hscope, hmc,
      if_true, EffM.runVal_withTrace] at h
    exact hydrateComp_id h

/-- C9 witness: the bare id `util` resolves through the fallback and the
returned component carries the rebound id `util` scoped to `"local"`. -/
theorem get_fallback_rebinds_id_witness :
    cUtilBare.id = idUtilBare.changeScope exSt.scopeName :=
  get_fallback_rebinds_id exSt idUtilBare cUtilBare rfl rfl rfl

/-- C2: `getMany` first compacts away empty/nullish identifiers, then
resolves each remaining identifier via `get` sequentially in input order and
drops absent results, so the output is exactly the in-order sequence of
present `get` results over the compacted input — never longer than the
input, and never reordering two present components. -/
theorem getMany_order_preserving (st : ScopeState) (ids : List (Option ComponentID))
    (cs : List Component) (h : (getMany st ids).runVal = Except.ok cs) :
    cs = (ids.filterMap (fun x => x)).filterMap (fun i => EffM.optVal (get st i)) ∧
    cs.length ≤ ids.length := by
  have hc := getMany_ok_spec st ids h
  refine ⟨hc, ?_⟩
  rw [hc]
  exact le_trans (List.length_filterMap_le _ _)
    (le_trans (List.length_filterMap_le _ _) le_rfl)

/-- C2 witness: resolving `[util@1.0.0, null, missing, shared@2.0.0]` yields
`[Component(util), Component(shared)]` — nullish and absent entries dropped,
relative order preserved, output shorter than input. -/
theorem getMany_order_preserving_witness :
    ([cUtilFull, cSharedFull] : List Component) =
      (([some idUtilFull, none, some idMissing, some idSharedFull].filterMap
        (fun x => x)).filterMap (fun i => EffM.optVal (get exSt i))) ∧
    ([cUtilFull, cSharedFull] : List Component).length ≤
      [some idUtilFull, none, some idMissing, some idSharedFull].length :=
  getMany_order_preserving exSt [some idUtilFull, none, some idMissing, some idSharedFull]
    [cUtilFull, cSharedFull] rfl

/-- C3: for a model component whose version keys are distinct (JavaScript
object keys always are), building the tag map never fails and returns
exactly one entry per version key whose `Version` record loads — keyed by
the version, carrying the tag derived from the loaded record — and no entry
for an unloadable key; the entry count equals the number of loadable keys. -/
theorem getTagMap_skips_unloadable (st : ScopeState) (mc : ModelComponent)
    (hnodup : (mc.versions.map Prod.fst).Nodup) :
    (getTagMap st mc).runVal =
      Except.ok (mc.versions.filterMap (fun p =>
        (loadVersionPure st mc p.1).map
          (fun v => (p.1, ({ snap := createSnapFromVersion v, version := p.1 } : Tag))))) ∧
    (∀ tm, (getTagMap st mc).runVal = Except.ok tm →
      tm.length = mc.versions.countP (fun p => (loadVersionPure st mc p.1).isSome)) := by
  have hspec := getTagMapGo_spec st mc mc.versions [] hnodup (by simp)
  rw [getTagMap_eq_go]
  simp only [List.nil_append] at hspec
  refine ⟨hspec, ?_⟩
  intro tm htm
  rw [hspec] at htm
  injection htm with htm1
  rw [← htm1, filterMap_length_countP]
  congr 1
  funext p
  cases loadVersionPure st mc p.1 <;> rfl

/-- C3 witness: on a component with two version keys, one loadable and one
missing from the object store, the tag map has exactly the one loadable
entry. -/
theorem getTagMap_skips_unloadable_witness :
    (getTagMap exSt mcMixed).runVal =
      Except.ok [("1.0.0",
        ({ snap := createSnapFromVersion vUtil, version := "1.0.0" } : Tag))] := by
  have h := (getTagMap_skips_unloadable exSt mcMixed (by decide)).1
  rw [h]
  rfl

/-- C5: with `includeCache = false` (the default) `list` only ever returns
components whose owning scope — as recorded on the `ModelComponent` and
decided by the `exists` ownership predicate — is this scope's own name;
with `includeCache = true` it may also return locally cached components
owned elsewhere, as the example store shows. -/
theorem list_ownership (st : ScopeState) (filter : Option ListFilter) :
    (∀ cs, (list st filter false).runVal = Except.ok cs →
      ∀ c ∈ cs, c.id.scope = some st.scopeName) ∧
    ((list exSt none true).runVal.map (fun cs => cs.map Component.id) =
        Except.ok [idUtilFull, idSharedFull] ∧
      idSharedFull.scope ≠ some exSt.scopeName) := by
  constructor
  · intro cs h c hc
    simp only [list, listStoreM, EffM.bind_ok, EffM.runVal_withTrace, Bool.false_eq_true,
      if_false] at h
    have hcs := getMany_ok_spec st _ h
    rw [filterMap_id_map_some] at hcs
    rw [hcs] at hc
    obtain ⟨i, hi, hopt⟩ := List.mem_filterMap.mp hc
    have hbase : i ∈ (st.modelComps.filter (existsInScope st)).map
        (fun c => ComponentID.fromLegacy c.toBitIdWithLatestVersion) :=
      applyFilter_subset filter _ hi
    obtain ⟨mcc, hmcc, hieq⟩ := List.mem_map.mp hbase
    have hown : existsInScope st mcc = true := List.of_mem_filter hmcc
    have hsc : mcc.scope = some st.scopeName := by
      simpa [existsInScope] using hown
    have hiscope : i.scope = some st.scopeName := by
      rw [← hieq]
      simp [ComponentID.fromLegacy, ModelComponent.toBitIdWithLatestVersion, hsc]
    have hcid : c.id = i := get_scoped_id (by simp [hiscope]) hopt
    rw [hcid]
    exact hiscope
  · exact ⟨rfl, by decide⟩

/-- C5 witness: on the example store `list` without cache returns exactly the
locally owned component, whose id is scoped to the scope's own name. -/
theorem list_ownership_witness :
    cUtilFull.id.scope = some exSt.scopeName :=
  (list_ownership exSt none).1 [cUtilFull] rfl cUtilFull (by simp)

/-- C6 counterexample: with the filter `{offset := 0, limit := 0}` the source
skips pagination entirely (a zero limit is falsy, failing the
`filter && filter.limit` test), so `list` returns the full listing — here one
component — although the claimed slice semantics allows at most
`limit = 0` components for every filter. -/
theorem list_limit_zero_unsliced :
    ((list exSt (some { offset := 0, limit := 0 }) false).runVal).map
      (fun cs => cs.length) = Except.ok 1 := rfl

/-- C6 (amended): for every filter whose `limit` is non-zero (truthy), `list`
returns the hydration of the slice of the full ordered listing starting at
`offset` with at most `limit` identifiers, so its output never exceeds
`limit` components; a zero `limit` disables pagination instead. -/
theorem list_pagination_nonzero (st : ScopeState) (off lim : Nat) (includeCache : Bool)
    (hlim : lim ≠ 0) :
    ((list st (some { offset := off, limit := lim }) includeCache).runVal =
      (getMany st ((((listedIds st includeCache).drop off).take lim).map some)).runVal) ∧
    (∀ cs, (list st (some { offset := off, limit := lim }) includeCache).runVal =
        Except.ok cs → cs.length ≤ lim) := by
  have hmain : (list st (some { offset := off, limit := lim }) includeCache).runVal =
      (getMany st ((((listedIds st includeCache).drop off).take lim).map some)).runVal := by
    simp [list, listStoreM, EffM.bind_ok, EffM.runVal_withTrace, listedIds, applyFilter, hlim]
  refine ⟨hmain, ?_⟩
  intro cs h
  rw [hmain] at h
  have hcs := getMany_ok_spec st _ h
  rw [filterMap_id_map_some] at hcs
  rw [hcs]
  exact le_trans (List.length_filterMap_le _ _) (List.length_take_le _ _)

/-- C6 witness: `{offset := 1, limit := 1}` over the two-component example
listing returns the slice `[shared@2.0.0]`, of length 1 ≤ limit. -/
theorem list_pagination_nonzero_witness :
    ((list exSt (some { offset := 1, limit := 1 }) true).runVal =
      (getMany exSt ((((listedIds exSt true).drop 1).take 1).map some)).runVal) ∧
    ([cSharedFull] : List Component).length ≤ 1 :=
  ⟨(list_pagination_nonzero exSt 1 1 true (by decide)).1,
   (list_pagination_nonzero exSt 1 1 true (by decide)).2 [cSharedFull] rfl⟩

/-- C10: for a non-empty set of extension ids, whenever the sequential
hydration (`getMany`) succeeds with the present components `comps`, the
pipeline isolates exactly `comps` into capsules and hands exactly their
requireable handles to the plugin loader with error propagation on, and
`comps` is the in-order compaction of the per-id `get` results — extension
ids whose component is absent are silently dropped rather than failing the
call. -/
theorem loadExtensions_drops_absent (st : ScopeState) (extensions : ExtensionDataList)
    (comps : List Component) (w : List Effect)
    (hne : extensions.extensionsBitIds.map ComponentID.fromLegacy ≠ [])
    (h : getMany st ((extensions.extensionsBitIds.map ComponentID.fromLegacy).map some) =
        Except.ok (comps, w)) :
    (loadExtensions st extensions =
      Except.ok ((), w ++ [Effect.isolateCall comps,
        Effect.pluginLoadCall ((comps.map Capsule.ofComponent).map
          RequireableComponent.fromCapsule) true])) ∧
    comps = (extensions.extensionsBitIds.map ComponentID.fromLegacy).filterMap
      (fun i => EffM.optVal (get st i)) := by
  constructor
  · have hempty : (extensions.extensionsBitIds.map ComponentID.fromLegacy).isEmpty = false := by
      cases hl : extensions.extensionsBitIds.map ComponentID.fromLegacy with
      | nil => exact absurd hl hne
      | cons a l => rfl
    simp only [loadExtensions, hempty, Bool.false_eq_true, if_false, h, EffM.bind_ok,
      isolateComponentsM, loadRequireableExtensionsM, EffM.withTrace_ok,
      List.singleton_append]
  · have hv : (getMany st
        ((extensions.extensionsBitIds.map ComponentID.fromLegacy).map some)).runVal =
        Except.ok comps := by
      rw [h]
      rfl
    have hcs := getMany_ok_spec st _ hv
    rw [filterMap_id_map_some] at hcs
    exact hcs

/-- C10 witness: an extension list naming one present and one absent
component loads exactly the present one. -/
theorem loadExtensions_drops_absent_witness :
    ([cUtilFull] : List Component) =
      (edlMixed.extensionsBitIds.map ComponentID.fromLegacy).filterMap
        (fun i => EffM.optVal (get exSt i)) :=
  (loadExtensions_drops_absent exSt edlMixed [cUtilFull] _ (by decide) rfl).2

end Scope
